import Mathlib

/-!
# Verification of the snap Prometheus publisher plugin

Shallow embedding of `src/prometheus/prometheus.go` (package `prometheus`):
the metric name/label transformer (`mangleMetric`), the text-exposition
serializer (`prometheusString`), the destination URL builder
(`prometheusUrl`), the connection pool (`selectClient`, the reaper
`watchConnections`) and the retry loop of `Publish`.

Times are modelled as natural numbers of nanoseconds (Go `time.Duration`
units).  Go maps are modelled as association lists whose canonical order is
insertion order; map assignment replaces the value in place.
-/

namespace SnapPrometheus

/-- A character accepted in a metric name: the complement of the
`invalidMetric` regular expression `[^a-zA-Z0-9:_]` (prometheus.go:41). -/
def isMetricChar (c : Char) : Bool :=
  decide (97 ≤ c.toNat ∧ c.toNat ≤ 122) ||
  decide (65 ≤ c.toNat ∧ c.toNat ≤ 90) ||
  decide (48 ≤ c.toNat ∧ c.toNat ≤ 57) ||
  c == ':' || c == '_'

/-- A character accepted in a label key: the complement of the
`invalidLabel` regular expression `[^a-zA-Z0-9_]` (prometheus.go:42). -/
def isLabelChar (c : Char) : Bool :=
  decide (97 ≤ c.toNat ∧ c.toNat ≤ 122) ||
  decide (65 ≤ c.toNat ∧ c.toNat ≤ 90) ||
  decide (48 ≤ c.toNat ∧ c.toNat ≤ 57) ||
  c == '_'

/-- `invalidMetric.ReplaceAllString(v, "_")` (prometheus.go:282): every rune
outside `[a-zA-Z0-9:_]` is replaced by `_` (the negated single-character
class matches one rune at a time). -/
def sanitizeMetric (s : String) : String :=
  ⟨s.data.map (fun c => if isMetricChar c then c else '_')⟩

/-- `invalidLabel.ReplaceAllString(k, "_")` (prometheus.go:302). -/
def sanitizeLabel (s : String) : String :=
  ⟨s.data.map (fun c => if isLabelChar c then c else '_')⟩

/-- One element of a snap metric namespace (snap library
`core.NamespaceElement`): a value, and a name that is non-empty exactly for
dynamic elements. -/
structure NamespaceElement where
  value : String
  name : String
deriving DecidableEq, Repr

instance : Inhabited NamespaceElement := ⟨⟨"", ""⟩⟩

/-- Indexes (counted from `i`) of the dynamic elements of a namespace
suffix; an element is dynamic iff its name is non-empty. -/
def dynamicIndexesFrom : List NamespaceElement → Nat → List Nat
  | [], _ => []
  | e :: t, i =>
    if e.name == "" then dynamicIndexesFrom t (i + 1)
    else i :: dynamicIndexesFrom t (i + 1)

/-- Modelled from the snap library: the index list returned by
`Namespace.IsDynamic` — the ascending list of indexes of the dynamic
(non-empty-name) elements in the unmodified namespace. -/
def dynamicIndexes (ns : List NamespaceElement) : List Nat :=
  dynamicIndexesFrom ns 0

/-- Association-list lookup, modelling Go map indexing `m[k]`. -/
def tagLookup {α : Type} : List (String × α) → String → Option α
  | [], _ => none
  | p :: t, k => if p.1 == k then some p.2 else tagLookup t k

/-- Association-list update, modelling Go map assignment `m[k] = v`:
replaces the value for an existing key in place, otherwise appends. -/
def tagInsert {α : Type} : List (String × α) → String → α → List (String × α)
  | [], k, v => [(k, v)]
  | p :: t, k, v => if p.1 == k then (k, v) :: t else p :: tagInsert t k v

/-- The metric's data payload, as far as `fmt.Sprint` rendering is
concerned (prometheus.go:307). -/
inductive MetricData where
  | ofInt (n : Int)
  | ofStr (s : String)
deriving DecidableEq, Repr

/-- Modelled from Go `fmt.Sprint`: integers render in decimal, strings
verbatim. -/
def fmtSprint : MetricData → String
  | .ofInt n => toString n
  | .ofStr s => s

/-- One metric record (`plugin.MetricType`): namespace, tags, unit, data
and timestamp (Unix seconds). -/
structure Metric where
  ns : List NamespaceElement
  tags : List (String × String)
  unit : String
  data : MetricData
  timestamp : Int
deriving DecidableEq, Repr

/-- The reserved tag key `core.STD_TAG_PLUGIN_RUNNING_ON` of the snap
library, the string "plugin_running_on". -/
def STD_TAG_PLUGIN_RUNNING_ON : String := "plugin_running_on"

/-- The dynamic-element loop of `mangleMetric` (prometheus.go:268-278):
for the `i`-th dynamic index `j` (iteration counter starting at `i`),
remove position `j - i` from the working segment list and record the tag
`orig[j].Name = orig[j].Value` taken from the unmodified namespace. -/
def dynLoop (orig : List NamespaceElement) :
    List String → List (String × String) → List Nat → Nat →
    List String × List (String × String)
  | ns, tags, [], _ => (ns, tags)
  | ns, tags, j :: js, i =>
    let e := orig.getD j default
    dynLoop orig (ns.eraseIdx (j - i)) (tagInsert tags e.name e.value) js (i + 1)

/-- The namespace-segment component of `dynLoop` viewed on its own:
successively erase position `j - i` for the `i`-th index `j`. -/
def eraseIdxsFrom : List String → List Nat → Nat → List String
  | ns, [], _ => ns
  | ns, j :: js, i => eraseIdxsFrom (ns.eraseIdx (j - i)) js (i + 1)

/-- The body of the tag-processing loop of `mangleMetric`
(prometheus.go:291-304): the reserved running-on tag is renamed to
`source` (unless `source` is user-supplied in the record's own tag map
`allTags`) and duplicated as `host` (unless `host` is user-supplied); any
other key is sanitized and added. -/
def processTag (allTags : List (String × String))
    (acc : List (String × String)) (kv : String × String) :
    List (String × String) :=
  if kv.1 == STD_TAG_PLUGIN_RUNNING_ON then
    let acc1 :=
      if (tagLookup allTags "source").isSome then acc
      else tagInsert acc "source" kv.2
    if (tagLookup allTags "host").isSome then acc1
    else tagInsert acc1 "host" kv.2
  else tagInsert acc (sanitizeLabel kv.1) kv.2

/-- `mangleMetric` (prometheus.go:261-310): returns the metric name, the
label map, the rendered value and the millisecond timestamp.  The
`isDynamic` guard of the source is equivalent to folding over the (then
empty) index list. -/
def mangleMetric (m : Metric) :
    String × List (String × String) × String × Int :=
  let ns0 := m.ns.map (fun e => e.value)
  let p := dynLoop m.ns ns0 [] (dynamicIndexes m.ns) 0
  let ns1 := p.1.map sanitizeMetric
  let tags1 :=
    if (tagLookup m.tags "unit").isSome then p.2
    else tagInsert p.2 "unit" m.unit
  let tags2 := m.tags.foldl (processTag m.tags) tags1
  (String.intercalate "_" ns1, tags2, fmtSprint m.data, m.timestamp * 1000)

/-- `prometheusString` (prometheus.go:249-259): renders
`name\x7bk1="v1",k2="v2",...\x7d value`, the label pairs joined with "," in
map order. -/
def prometheusString (name : String) (tags : List (String × String))
    (value : String) : String :=
  let tmp1 := tags.map (fun kv => kv.1 ++ "=\"" ++ kv.2 ++ "\"")
  name ++ "\x7b" ++ String.intercalate "," tmp1 ++ "\x7d " ++ value

/-- The configuration values read by the publisher.  `retries` is a Go
`int`; a non-positive value makes the retry loop body never run, so it is
modelled as a natural number. -/
structure Config where
  host : String
  port : Int
  https : Bool
  job : String
  instanceName : String
  retries : Nat
  timeoutSecs : Int
  replace : Bool
deriving DecidableEq, Repr

/-- The URL string composed by `prometheusUrl` (prometheus.go:323-338):
scheme from the `https` flag, then host, port, job, and the instance path
segment exactly when `instance` is non-empty. -/
def composedUrl (c : Config) : String :=
  let scheme := if c.https then "https" else "http"
  if c.instanceName.length > 0 then
    scheme ++ "://" ++ c.host ++ ":" ++ toString c.port ++ "/metrics/job/" ++
      c.job ++ "/instance/" ++ c.instanceName
  else
    scheme ++ "://" ++ c.host ++ ":" ++ toString c.port ++ "/metrics/job/" ++
      c.job

/-- Whether the string contains an ASCII control byte (code below 0x20, or
0x7f). -/
def containsCTLByte (s : String) : Bool :=
  s.data.any (fun c => decide (c.toNat < 32) || c.toNat == 127)

/-- Modelled from Go `net/url.Parse` as exercised by these URL shapes:
parsing fails iff the string contains an ASCII control character (Go's
`stringContainsCTLByte` rejection); on success the parsed URL is
represented by the string itself (its `String()` form is a function of the
parse result, which is all the pool key needs). -/
def urlParse (s : String) : Except String String :=
  if containsCTLByte s then .error "net/url: invalid control character in URL"
  else .ok s

/-- `prometheusUrl` (prometheus.go:312-344): compose the URL string and
parse it, propagating the parse error. -/
def prometheusUrl (c : Config) : Except String String :=
  urlParse (composedUrl c)

/-- An HTTP client handle (`http.Client`): `id` models the identity of the
freshly allocated client, `timeoutSecs` the seconds given to
`Timeout: time.Second * time.Duration(timeoutSecs)` (prometheus.go:362). -/
structure HTTPClient where
  id : Nat
  timeoutSecs : Int
deriving DecidableEq, Repr

/-- `clientConnection` (prometheus.go:45-49). -/
structure ClientConn where
  Key : String
  Conn : HTTPClient
  LastUsed : Nat
deriving DecidableEq, Repr

/-- The mutable package state touched by `selectClient`: the pool map and a
counter supplying fresh client identities. -/
structure PoolState where
  clientPool : List (String × ClientConn)
  nextId : Nat
deriving DecidableEq, Repr

/-- Outcome of a `selectClient` call: the returned connection, a returned
error, or the nil-pointer dereference panic of `promUrl.String()` when URL
construction failed (prometheus.go:355-356 reads the URL before checking
`err`). -/
inductive SelectResult where
  | ok (cc : ClientConn)
  | err (msg : String)
  | nilDerefPanic
deriving DecidableEq, Repr

/-- `selectClient` (prometheus.go:346-386).  The pool key is
`promUrl.String()`, computed before `err` is inspected, so a failed URL
parse panics.  With a parsed URL the dead `if err != nil` check inside the
creation branch can never fire, and the lookup/force-refresh disjunction of
the source (`clientPool[key] == nil || forceRefresh`) is split into the
equivalent match below. -/
def selectClient (c : Config) (forceRefresh : Bool) (st : PoolState)
    (now : Nat) : SelectResult × PoolState :=
  match prometheusUrl c with
  | .error _ => (.nilDerefPanic, st)
  | .ok u =>
    let key := u
    let create : SelectResult × PoolState :=
      let con : HTTPClient := { id := st.nextId, timeoutSecs := c.timeoutSecs }
      let cCon : ClientConn := { Key := key, Conn := con, LastUsed := now }
      (.ok cCon,
       { clientPool := tagInsert st.clientPool key cCon,
         nextId := st.nextId + 1 })
    match tagLookup st.clientPool key with
    | none => create
    | some cc =>
      if forceRefresh then create
      else
        let cc2 : ClientConn := { cc with LastUsed := now }
        (.ok cc2, { st with clientPool := tagInsert st.clientPool key cc2 })

/-- One nanosecond times 10^9: Go `time.Second`. -/
def timeSecond : Nat := 1000000000

/-- Go `time.Minute`. -/
def timeMinute : Nat := 60 * timeSecond

/-- `maxConnectionIdle = time.Minute * 5` (prometheus.go:34). -/
def maxConnectionIdle : Nat := 5 * timeMinute

/-- `watchConnectionWait = time.Minute * 1` (prometheus.go:36). -/
def watchConnectionWait : Nat := timeMinute

/-- One scan of the reaper loop body (prometheus.go:54-60): delete every
entry with `now.Sub(LastUsed) > maxConnectionIdle`.  Natural subtraction
truncates at zero, matching Go's negative duration never exceeding the
threshold. -/
def reapScan (pool : List (String × ClientConn)) (now : Nat) :
    List (String × ClientConn) :=
  pool.filter (fun kv => !(decide (now - kv.2.LastUsed > maxConnectionIdle)))

/-- `watchConnections` (prometheus.go:51-62) run for `k` iterations
starting at time `t0`, with no intervening pool use: each iteration sleeps
`watchConnectionWait` and then scans. -/
def watchConnectionsRun (pool : List (String × ClientConn)) (t0 : Nat) :
    Nat → List (String × ClientConn)
  | 0 => pool
  | k + 1 =>
    reapScan (watchConnectionsRun pool t0 k)
      (t0 + (k + 1) * watchConnectionWait)

/-- What one iteration of the `Publish` retry loop recorded: the attempt
number, the `forceRefresh` flag passed to `selectClient`, how the attempt
ended, and whether a backoff sleep followed. -/
inductive AttemptOutcome where
  | selectFailed
  | sendFailed
  | sent
deriving DecidableEq, Repr

/-- Trace entry for one retry-loop iteration. -/
structure Attempt where
  idx : Nat
  forceRefresh : Bool
  outcome : AttemptOutcome
  slept : Bool
deriving DecidableEq, Repr

/-- The retry loop of `Publish` (prometheus.go:182-210), with the loop
guard `retry < retries` realized by the fuel `rem = retries - retry`.
`selOk i` is whether `selectClient` returned a nil error on attempt `i`
(an oracle covering the source's error branch), `sendOk i` whether
`sendMetrics` — an external HTTP transport — succeeded.  A failed attempt
sleeps for the next backoff interval only when `retry+1 < retries`; a
successful send breaks out of the loop. -/
def publishAttempts (retries : Nat) (selOk sendOk : Nat → Bool) :
    Nat → Nat → List Attempt
  | 0, _ => []
  | rem + 1, retry =>
    let fr := decide (retry > 0)
    if !(selOk retry) then
      { idx := retry, forceRefresh := fr, outcome := .selectFailed,
        slept := decide (retry + 1 < retries) } ::
        publishAttempts retries selOk sendOk rem (retry + 1)
    else if !(sendOk retry) then
      { idx := retry, forceRefresh := fr, outcome := .sendFailed,
        slept := decide (retry + 1 < retries) } ::
        publishAttempts retries selOk sendOk rem (retry + 1)
    else
      [{ idx := retry, forceRefresh := fr, outcome := .sent, slept := false }]

/-- How a call into Go code ends: a nil error, a non-nil error, or a
panic. -/
inductive GoResult where
  | ok
  | err (msg : String)
  | panicked (msg : String)
deriving DecidableEq, Repr

/-- `Publish` (prometheus.go:153-213) from the decode switch onward.
`decoded` is the outcome of the external GOB/JSON decode of the request
body (its error is returned to the caller).  A failed `prometheusUrl`
panics (prometheus.go:177).  Otherwise the retry loop runs and the
function returns nil unconditionally (prometheus.go:212). -/
def Publish (decoded : Except String Unit) (c : Config)
    (selOk sendOk : Nat → Bool) : GoResult × List Attempt :=
  match decoded with
  | .error e => (.err e, [])
  | .ok _ =>
    match prometheusUrl c with
    | .error e => (.panicked e, [])
    | .ok _ => (.ok, publishAttempts c.retries selOk sendOk c.retries 0)

/-! ## Helper lemmas: association lists -/

theorem tagLookup_tagInsert_self {α : Type} (l : List (String × α)) (k : String)
    (v : α) : tagLookup (tagInsert l k v) k = some v := by
  induction l with
  | nil => simp [tagInsert, tagLookup]
  | cons p t ih =>
    by_cases h : p.1 = k
    · simp [tagInsert, tagLookup, h]
    · simp [tagInsert, tagLookup, h, ih]

theorem tagLookup_tagInsert_ne {α : Type} (l : List (String × α))
    (k k' : String) (v : α) (h : k' ≠ k) :
    tagLookup (tagInsert l k v) k' = tagLookup l k' := by
  have hkk : ¬k = k' := fun he => h he.symm
  induction l with
  | nil => simp [tagInsert, tagLookup, hkk]
  | cons p t ih =>
    by_cases h1 : p.1 = k
    · subst h1
      simp [tagInsert, tagLookup, hkk]
    · simp [tagInsert, tagLookup, h1, ih]

theorem tagLookup_none_iff {α : Type} (l : List (String × α)) (k : String) :
    tagLookup l k = none ↔ ∀ p ∈ l, p.1 ≠ k := by
  induction l with
  | nil => simp [tagLookup]
  | cons p t ih =>
    by_cases h : p.1 = k
    · simp [tagLookup, h]
    · simp [tagLookup, h, ih]

theorem tagLookup_some_mem {α : Type} (l : List (String × α)) (k : String)
    (v : α) (h : tagLookup l k = some v) : ∃ p ∈ l, p.1 = k ∧ p.2 = v := by
  induction l with
  | nil => simp [tagLookup] at h
  | cons p t ih =>
    by_cases h1 : p.1 = k
    · simp [tagLookup, h1] at h
      exact ⟨p, by simp, h1, h⟩
    · simp [tagLookup, h1] at h
      obtain ⟨q, hq, hk, hv⟩ := ih h
      exact ⟨q, by simp [hq], hk, hv⟩

theorem tagLookup_value_of_nodup {α : Type} (l : List (String × α))
    (k : String) (v : α) (hnd : (l.map Prod.fst).Nodup)
    (h : tagLookup l k = some v) : ∀ p ∈ l, p.1 = k → p.2 = v := by
  induction l with
  | nil => simp
  | cons q t ih =>
    rw [List.map_cons, List.nodup_cons] at hnd
    by_cases h1 : q.1 = k
    · simp [tagLookup, h1] at h
      intro p hp hpk
      rcases List.mem_cons.mp hp with h2 | h2
      · rw [h2, ← h]
      · exfalso
        exact hnd.1 (h1 ▸ hpk ▸ List.mem_map_of_mem Prod.fst h2)
    · simp [tagLookup, h1] at h
      intro p hp hpk
      rcases List.mem_cons.mp hp with h2 | h2
      · exact absurd (h2 ▸ hpk) h1
      · exact ih hnd.2 h p h2 hpk

theorem tagLookup_foldl_tagInsert_ne {β : Type} (f g : β → String) :
    ∀ (ps : List β) (acc : List (String × String)) (n : String),
      (∀ p ∈ ps, f p ≠ n) →
      tagLookup (ps.foldl (fun a p => tagInsert a (f p) (g p)) acc) n =
        tagLookup acc n := by
  intro ps
  induction ps with
  | nil => intro acc n _; rfl
  | cons q rest ih =>
    intro acc n h
    rw [List.foldl_cons, ih _ n (fun p hp => h p (by simp [hp]))]
    exact tagLookup_tagInsert_ne acc (f q) n (g q) (fun he => h q (by simp) he.symm)

theorem tagLookup_foldl_tagInsert_self {β : Type} (f g : β → String) :
    ∀ (ps : List β) (acc : List (String × String)) (p0 : β),
      p0 ∈ ps → (ps.map f).Nodup →
      tagLookup (ps.foldl (fun a p => tagInsert a (f p) (g p)) acc) (f p0) =
        some (g p0) := by
  intro ps
  induction ps with
  | nil => simp
  | cons q rest ih =>
    intro acc p0 hmem hnd
    rw [List.map_cons, List.nodup_cons] at hnd
    rw [List.foldl_cons]
    rcases List.mem_cons.mp hmem with h | h
    · subst h
      rw [tagLookup_foldl_tagInsert_ne f g rest _ (f p0)
        (fun p hp he => hnd.1 (he ▸ List.mem_map_of_mem f hp))]
      exact tagLookup_tagInsert_self _ _ _
    · exact ih _ p0 h hnd.2

/-! ## Helper lemmas: sanitization -/

theorem sanitizeLabel_data (s : String) :
    (sanitizeLabel s).data =
      s.data.map (fun c => if isLabelChar c then c else '_') := rfl

theorem map_labelChar_clean :
    ∀ (d td : List Char),
      d.map (fun c => if isLabelChar c then c else '_') = td →
      (∀ c ∈ td, isLabelChar c = true ∧ c ≠ '_') → d = td := by
  intro d
  induction d with
  | nil => intro td h _; simp at h; rw [← h]
  | cons c d ih =>
    intro td h hc
    cases td with
    | nil => simp at h
    | cons c' td' =>
      simp only [List.map_cons, List.cons.injEq] at h
      have hclean := hc c' (by simp)
      have hcc : c = c' := by
        by_cases hl : isLabelChar c
        · rw [← h.1]; simp [hl]
        · exfalso
          apply hclean.2
          rw [← h.1]; simp [hl]
      rw [hcc, ih td' h.2 (fun x hx => hc x (by simp [hx]))]

theorem sanitizeLabel_eq_clean (t : String)
    (hc : ∀ c ∈ t.data, isLabelChar c = true ∧ c ≠ '_') :
    ∀ s, sanitizeLabel s = t → s = t := by
  intro s h
  cases s with
  | mk d =>
    cases t with
    | mk td =>
      apply congrArg String.mk
      exact map_labelChar_clean d td (congrArg String.data h) hc

/-! ## Helper lemmas: the dynamic-element loop of mangleMetric -/

theorem dynLoop_fst (orig : List NamespaceElement) :
    ∀ (idxs : List Nat) (ns : List String) (tags : List (String × String))
      (i : Nat), (dynLoop orig ns tags idxs i).1 = eraseIdxsFrom ns idxs i := by
  intro idxs
  induction idxs with
  | nil => intros; rfl
  | cons j js ih => intro ns tags i; simp [dynLoop, eraseIdxsFrom, ih]

theorem dynLoop_snd (orig : List NamespaceElement) :
    ∀ (idxs : List Nat) (ns : List String) (tags : List (String × String))
      (i : Nat),
      (dynLoop orig ns tags idxs i).2 =
        idxs.foldl
          (fun a j => tagInsert a (orig.getD j default).name
            (orig.getD j default).value) tags := by
  intro idxs
  induction idxs with
  | nil => intros; rfl
  | cons j js ih => intro ns tags i; simp [dynLoop, ih]

theorem dynamicIndexesFrom_le :
    ∀ (t : List NamespaceElement) (i j : Nat),
      j ∈ dynamicIndexesFrom t i → i ≤ j := by
  intro t
  induction t with
  | nil => simp [dynamicIndexesFrom]
  | cons e t ih =>
    intro i j hj
    by_cases he : e.name == ""
    · simp only [dynamicIndexesFrom, he, if_pos] at hj
      exact Nat.le_of_succ_le (ih (i + 1) j hj)
    · simp only [dynamicIndexesFrom, he, if_neg, Bool.false_eq_true,
        not_false_iff, List.mem_cons] at hj
      rcases hj with h | h
      · omega
      · exact Nat.le_of_succ_le (ih (i + 1) j h)

theorem dynamicIndexesFrom_lt :
    ∀ (t : List NamespaceElement) (i j : Nat),
      j ∈ dynamicIndexesFrom t i → j < i + t.length := by
  intro t
  induction t with
  | nil => simp [dynamicIndexesFrom]
  | cons e t ih =>
    intro i j hj
    by_cases he : e.name == ""
    · simp only [dynamicIndexesFrom, he, if_pos] at hj
      have := ih (i + 1) j hj
      simp only [List.length_cons]
      omega
    · simp only [dynamicIndexesFrom, he, if_neg, Bool.false_eq_true,
        not_false_iff, List.mem_cons] at hj
      simp only [List.length_cons]
      rcases hj with h | h
      · omega
      · have := ih (i + 1) j h
        omega

theorem dynamicIndexesFrom_pairwise :
    ∀ (t : List NamespaceElement) (i : Nat),
      (dynamicIndexesFrom t i).Pairwise (· < ·) := by
  intro t
  induction t with
  | nil => intro i; simp [dynamicIndexesFrom]
  | cons e t ih =>
    intro i
    by_cases he : e.name == ""
    · simp only [dynamicIndexesFrom, he, if_pos]
      exact ih (i + 1)
    · simp only [dynamicIndexesFrom, he, if_neg, Bool.false_eq_true,
        not_false_iff, List.pairwise_cons]
      exact ⟨fun j hj => Nat.lt_of_succ_le (dynamicIndexesFrom_le t (i + 1) j hj),
        ih (i + 1)⟩

theorem eraseIdxsFrom_cons (a : String) :
    ∀ (idxs : List Nat) (l : List String) (i : Nat),
      idxs.Pairwise (· < ·) → (∀ j ∈ idxs, i < j) →
      eraseIdxsFrom (a :: l) idxs i = a :: eraseIdxsFrom l idxs (i + 1) := by
  intro idxs
  induction idxs with
  | nil => intros; rfl
  | cons j js ih =>
    intro l i hp hgt
    rw [List.pairwise_cons] at hp
    have hj : i < j := hgt j (by simp)
    have hstep : (a :: l).eraseIdx (j - i) = a :: l.eraseIdx (j - (i + 1)) := by
      obtain ⟨k, hk⟩ : ∃ k, j - i = k + 1 := ⟨j - i - 1, by omega⟩
      have hk2 : j - (i + 1) = k := by omega
      rw [hk, hk2, List.eraseIdx_cons_succ]
    rw [eraseIdxsFrom, hstep, eraseIdxsFrom]
    exact ih _ (i + 1) hp.2 (fun j' hj' => by have := hp.1 j' hj'; omega)

theorem eraseIdxsFrom_dynamicIndexesFrom :
    ∀ (ns : List NamespaceElement) (i : Nat),
      eraseIdxsFrom (ns.map (fun e => e.value)) (dynamicIndexesFrom ns i) i =
        (ns.filter (fun e => e.name == "")).map (fun e => e.value) := by
  intro ns
  induction ns with
  | nil => intro i; rfl
  | cons e t ih =>
    intro i
    by_cases he : e.name == ""
    · simp only [dynamicIndexesFrom, he, if_pos, List.map_cons]
      rw [eraseIdxsFrom_cons e.value _ _ _ (dynamicIndexesFrom_pairwise t (i + 1))
        (fun j hj => Nat.lt_of_succ_le (dynamicIndexesFrom_le t (i + 1) j hj))]
      rw [ih (i + 1), List.filter_cons, if_pos he, List.map_cons]
    · simp only [dynamicIndexesFrom, he, if_neg, Bool.false_eq_true, not_false_iff,
        List.map_cons]
      rw [eraseIdxsFrom, Nat.sub_self, List.eraseIdx_cons_zero, ih (i + 1),
        List.filter_cons, if_neg (by simp [he])]

theorem getD_append_length (d : NamespaceElement) :
    ∀ (pre : List NamespaceElement) (e : NamespaceElement)
      (t : List NamespaceElement), (pre ++ e :: t).getD pre.length d = e := by
  intro pre
  induction pre with
  | nil => intro e t; rfl
  | cons p pre ih => intro e t; simpa using ih e t

theorem dynFoldTags_eq :
    ∀ (t pre : List NamespaceElement) (acc : List (String × String)),
      (dynamicIndexesFrom t pre.length).foldl
        (fun a j => tagInsert a ((pre ++ t).getD j default).name
          ((pre ++ t).getD j default).value) acc =
      (t.filter (fun e => !(e.name == ""))).foldl
        (fun a e => tagInsert a e.name e.value) acc := by
  intro t
  induction t with
  | nil => intros; rfl
  | cons e t ih =>
    intro pre acc
    by_cases he : e.name == ""
    · simp only [dynamicIndexesFrom, he, if_pos, List.filter_cons]
      rw [if_neg (by simp [he])]
      have hlen : pre.length + 1 = (pre ++ [e]).length := by simp
      have happ : pre ++ e :: t = (pre ++ [e]) ++ t := by simp
      rw [happ, hlen, ih (pre ++ [e]) acc]
    · simp only [dynamicIndexesFrom, he, if_neg, Bool.false_eq_true, not_false_iff,
        List.filter_cons]
      rw [if_pos (by simp [he]), List.foldl_cons, List.foldl_cons,
        getD_append_length default pre e t]
      have hlen : pre.length + 1 = (pre ++ [e]).length := by simp
      have happ : pre ++ e :: t = (pre ++ [e]) ++ t := by simp
      rw [happ, hlen, ih (pre ++ [e])]

/-! ## Helper lemmas: the tag-processing loop of mangleMetric -/

theorem processTag_std (allTags acc : List (String × String))
    (kv : String × String) (h : kv.1 = STD_TAG_PLUGIN_RUNNING_ON) :
    processTag allTags acc kv =
      (if (tagLookup allTags "host").isSome then
        (if (tagLookup allTags "source").isSome then acc
         else tagInsert acc "source" kv.2)
       else
        tagInsert
          (if (tagLookup allTags "source").isSome then acc
           else tagInsert acc "source" kv.2) "host" kv.2) := by
  simp [processTag, h]

theorem processTag_notstd (allTags acc : List (String × String))
    (kv : String × String) (h : ¬kv.1 = STD_TAG_PLUGIN_RUNNING_ON) :
    processTag allTags acc kv = tagInsert acc (sanitizeLabel kv.1) kv.2 := by
  simp [processTag, h]

theorem tagLookup_foldl_processTag (allTags : List (String × String)) :
    ∀ (ts acc : List (String × String)) (n : String),
      (∀ p ∈ ts, (p.1 = STD_TAG_PLUGIN_RUNNING_ON → n ≠ "source" ∧ n ≠ "host") ∧
        (p.1 ≠ STD_TAG_PLUGIN_RUNNING_ON → sanitizeLabel p.1 ≠ n)) →
      tagLookup (ts.foldl (processTag allTags) acc) n = tagLookup acc n := by
  intro ts
  induction ts with
  | nil => intro acc n _; rfl
  | cons q rest ih =>
    intro acc n h
    have hq := h q (by simp)
    rw [List.foldl_cons, ih _ n (fun p hp => h p (by simp [hp]))]
    by_cases hstd : q.1 = STD_TAG_PLUGIN_RUNNING_ON
    · obtain ⟨hs, hh⟩ := hq.1 hstd
      rw [processTag_std allTags acc q hstd]
      by_cases h1 : (tagLookup allTags "source").isSome <;>
        by_cases h2 : (tagLookup allTags "host").isSome <;>
          simp [h1, h2, tagLookup_tagInsert_ne _ _ _ _ hs,
            tagLookup_tagInsert_ne _ _ _ _ hh]
    · rw [processTag_notstd allTags acc q hstd]
      exact tagLookup_tagInsert_ne _ _ _ _ (fun he => (hq.2 hstd) he.symm)

theorem tagLookup_foldl_processTag_source (allTags : List (String × String))
    (v : String) (hsrc : tagLookup allTags "source" = none) :
    ∀ (ts acc : List (String × String)),
      (∀ p ∈ ts, p.1 = STD_TAG_PLUGIN_RUNNING_ON → p.2 = v) →
      (∃ p ∈ ts, p.1 = STD_TAG_PLUGIN_RUNNING_ON) →
      (∀ p ∈ ts, p.1 ≠ "source") →
      tagLookup (ts.foldl (processTag allTags) acc) "source" = some v := by
  intro ts
  induction ts with
  | nil => intro acc _ hex _; simp at hex
  | cons q rest ih =>
    intro acc hall hex hns
    rw [List.foldl_cons]
    by_cases hstd : q.1 = STD_TAG_PLUGIN_RUNNING_ON
    · have hv : q.2 = v := hall q (by simp) hstd
      by_cases hex2 : ∃ p ∈ rest, p.1 = STD_TAG_PLUGIN_RUNNING_ON
      · exact ih _ (fun p hp => hall p (by simp [hp])) hex2
          (fun p hp => hns p (by simp [hp]))
      · push_neg at hex2
        rw [tagLookup_foldl_processTag allTags rest _ "source"
          (fun p hp => ⟨fun he => absurd he (hex2 p hp),
            fun _ hsan => hns p (by simp [hp])
              (sanitizeLabel_eq_clean "source" (by decide) p.1 hsan)⟩)]
        rw [processTag_std allTags acc q hstd]
        have hs1 : ¬(tagLookup allTags "source").isSome = true := by
          rw [hsrc]; simp
        by_cases h2 : (tagLookup allTags "host").isSome
        · rw [if_pos h2, if_neg hs1, tagLookup_tagInsert_self, hv]
        · rw [if_neg h2, if_neg hs1,
            tagLookup_tagInsert_ne _ _ _ _ (by decide),
            tagLookup_tagInsert_self, hv]
    · have hex2 : ∃ p ∈ rest, p.1 = STD_TAG_PLUGIN_RUNNING_ON := by
        obtain ⟨p, hp, hps⟩ := hex
        rcases List.mem_cons.mp hp with h | h
        · exact absurd (h ▸ hps) hstd
        · exact ⟨p, h, hps⟩
      exact ih _ (fun p hp => hall p (by simp [hp])) hex2
        (fun p hp => hns p (by simp [hp]))

theorem tagLookup_foldl_processTag_host (allTags : List (String × String))
    (v : String) (hhost : tagLookup allTags "host" = none) :
    ∀ (ts acc : List (String × String)),
      (∀ p ∈ ts, p.1 = STD_TAG_PLUGIN_RUNNING_ON → p.2 = v) →
      (∃ p ∈ ts, p.1 = STD_TAG_PLUGIN_RUNNING_ON) →
      (∀ p ∈ ts, p.1 ≠ "host") →
      tagLookup (ts.foldl (processTag allTags) acc) "host" = some v := by
  intro ts
  induction ts with
  | nil => intro acc _ hex _; simp at hex
  | cons q rest ih =>
    intro acc hall hex hns
    rw [List.foldl_cons]
    by_cases hstd : q.1 = STD_TAG_PLUGIN_RUNNING_ON
    · have hv : q.2 = v := hall q (by simp) hstd
      by_cases hex2 : ∃ p ∈ rest, p.1 = STD_TAG_PLUGIN_RUNNING_ON
      · exact ih _ (fun p hp => hall p (by simp [hp])) hex2
          (fun p hp => hns p (by simp [hp]))
      · push_neg at hex2
        rw [tagLookup_foldl_processTag allTags rest _ "host"
          (fun p hp => ⟨fun he => absurd he (hex2 p hp),
            fun _ hsan => hns p (by simp [hp])
              (sanitizeLabel_eq_clean "host" (by decide) p.1 hsan)⟩)]
        rw [processTag_std allTags acc q hstd]
        have hh1 : ¬(tagLookup allTags "host").isSome = true := by
          rw [hhost]; simp
        rw [if_neg hh1, tagLookup_tagInsert_self, hv]
    · have hex2 : ∃ p ∈ rest, p.1 = STD_TAG_PLUGIN_RUNNING_ON := by
        obtain ⟨p, hp, hps⟩ := hex
        rcases List.mem_cons.mp hp with h | h
        · exact absurd (h ▸ hps) hstd
        · exact ⟨p, h, hps⟩
      exact ih _ (fun p hp => hall p (by simp [hp])) hex2
        (fun p hp => hns p (by simp [hp]))

/-! ## Claim theorems -/

/-- C1: for every metric record, the compensated removal at effective index
`j - i` leaves the metric name made of exactly the non-dynamic segments in
their original order (none dropped, none duplicated, each sanitized), and
for each dynamic segment the label `segment.name = segment.value` is added
(present in the final label map whenever no later rule — distinct dynamic
names, the unit rule, or tag processing — overwrites that key). -/
theorem c1_dynamic_segments_removed (m : Metric) :
    (mangleMetric m).1 =
      String.intercalate "_"
        ((m.ns.filter (fun e => e.name == "")).map
          (fun e => sanitizeMetric e.value)) ∧
    (((m.ns.filter (fun e => !(e.name == ""))).map (fun e => e.name)).Nodup →
      ∀ e ∈ m.ns, e.name ≠ "" → e.name ≠ "unit" → e.name ≠ "source" →
        e.name ≠ "host" → (∀ p ∈ m.tags, sanitizeLabel p.1 ≠ e.name) →
        tagLookup (mangleMetric m).2.1 e.name = some e.value) := by
  constructor
  · have h1 : (mangleMetric m).1 =
        String.intercalate "_"
          ((dynLoop m.ns (m.ns.map (fun e => e.value)) []
            (dynamicIndexes m.ns) 0).1.map sanitizeMetric) := rfl
    rw [h1, dynLoop_fst]
    show String.intercalate "_"
        ((eraseIdxsFrom (m.ns.map fun e => e.value)
          (dynamicIndexesFrom m.ns 0) 0).map sanitizeMetric) = _
    rw [eraseIdxsFrom_dynamicIndexesFrom m.ns 0, List.map_map]
    rfl
  · intro hnd e he hne hnu hnsrc hnhost hsan
    have h2 : (mangleMetric m).2.1 =
        m.tags.foldl (processTag m.tags)
          (if (tagLookup m.tags "unit").isSome then
            (dynLoop m.ns (m.ns.map (fun e => e.value)) []
              (dynamicIndexes m.ns) 0).2
           else
            tagInsert
              (dynLoop m.ns (m.ns.map (fun e => e.value)) []
                (dynamicIndexes m.ns) 0).2 "unit" m.unit) := rfl
    rw [h2, tagLookup_foldl_processTag m.tags m.tags _ e.name
      (fun p hp => ⟨fun _ => ⟨hnsrc, hnhost⟩, fun _ => hsan p hp⟩)]
    have h3 : ∀ acc, tagLookup
        (if (tagLookup m.tags "unit").isSome then acc
         else tagInsert acc "unit" m.unit) e.name = tagLookup acc e.name := by
      intro acc
      by_cases hu : (tagLookup m.tags "unit").isSome
      · rw [if_pos hu]
      · rw [if_neg hu, tagLookup_tagInsert_ne _ _ _ _ hnu]
    rw [h3, dynLoop_snd]
    have h4 := dynFoldTags_eq m.ns [] []
    simp only [List.nil_append, List.length_nil] at h4
    show tagLookup ((dynamicIndexesFrom m.ns 0).foldl
      (fun a j => tagInsert a (m.ns.getD j default).name
        (m.ns.getD j default).value) []) e.name = some e.value
    rw [h4]
    exact tagLookup_foldl_tagInsert_self (fun e => e.name) (fun e => e.value)
      _ [] e (List.mem_filter.mpr ⟨he, by simp [hne]⟩) hnd

/-- Concrete instance of C1: a namespace with two dynamic segments. -/
def c1w : Metric :=
  { ns := [⟨"net", ""⟩, ⟨"eth0", "iface"⟩, ⟨"tx", "dir"⟩, ⟨"bytes", ""⟩],
    tags := [("t one", "1")], unit := "B", data := .ofInt 7, timestamp := 0 }

/-- Witness for C1 at a concrete record with two dynamic segments. -/
theorem c1_dynamic_segments_removed_witness :
    (mangleMetric c1w).1 = "net_bytes" ∧
    tagLookup (mangleMetric c1w).2.1 "iface" = some "eth0" ∧
    tagLookup (mangleMetric c1w).2.1 "dir" = some "tx" := by
  have h := c1_dynamic_segments_removed c1w
  refine ⟨?_, ?_, ?_⟩
  · rw [h.1]; rfl
  · exact h.2 (by decide) ⟨"eth0", "iface"⟩ (by decide) (by decide) (by decide)
      (by decide) (by decide) (by decide)
  · exact h.2 (by decide) ⟨"tx", "dir"⟩ (by decide) (by decide) (by decide)
      (by decide) (by decide) (by decide)

/-- The end-to-end example record of the specification: namespace
`cpu/0/percent`, dynamic at index 1 named `core` with value `0`, unit
`percent`, value 42, no tags. -/
def c8m : Metric :=
  { ns := [⟨"cpu", ""⟩, ⟨"0", "core"⟩, ⟨"percent", ""⟩],
    tags := [], unit := "percent", data := .ofInt 42, timestamp := 0 }

/-- C8: the record with namespace `cpu/0/percent`, dynamic at index 1 named
`core` with value `0`, unit `percent`, value 42 and no tags transforms to
name `cpu_percent`, labels core/unit, value text `42`, and serializes to
the line `cpu_percent\x7bcore="0",unit="percent"\x7d 42`. -/
theorem c8_end_to_end :
    mangleMetric c8m =
      ("cpu_percent", [("core", "0"), ("unit", "percent")], "42", 0) ∧
    prometheusString "cpu_percent" [("core", "0"), ("unit", "percent")] "42" =
      "cpu_percent\x7bcore=\"0\",unit=\"percent\"\x7d 42" := by
  constructor <;> rfl

/-- C9: metric-name sanitization is total (a function on all strings),
idempotent, and leaves no character outside `[A-Za-z0-9:_]` in its
output. -/
theorem c9_sanitize_idempotent (s : String) :
    sanitizeMetric (sanitizeMetric s) = sanitizeMetric s ∧
    ∀ c ∈ (sanitizeMetric s).data, isMetricChar c = true := by
  have hf : ∀ c, isMetricChar (if isMetricChar c then c else '_') = true := by
    intro c
    by_cases h : isMetricChar c
    · simp [h]
    · simp only [h, if_neg, Bool.false_eq_true, not_false_iff]
      decide
  constructor
  · cases s with
    | mk d =>
      apply congrArg String.mk
      show (d.map _).map _ = d.map _
      rw [List.map_map]
      apply List.map_congr_left
      intro c _
      simp only [Function.comp_apply]
      by_cases h : isMetricChar c
      · simp [h]
      · simp only [h, if_neg, Bool.false_eq_true, not_false_iff]
        decide
  · intro c hc
    obtain ⟨a, _, ha⟩ := List.mem_map.mp hc
    rw [← ha]
    exact hf a

/-- Witness for C9 at a concrete string containing invalid characters. -/
theorem c9_sanitize_idempotent_witness :
    sanitizeMetric (sanitizeMetric "cpu%0 a") = sanitizeMetric "cpu%0 a" ∧
    isMetricChar '_' = true :=
  ⟨(c9_sanitize_idempotent "cpu%0 a").1,
   (c9_sanitize_idempotent "cpu%0 a").2 '_' (by decide)⟩

/-! ## Helper lemmas: the retry loop -/

theorem publishAttempts_selectFail (retries : Nat) (selOk sendOk : Nat → Bool)
    (rem retry : Nat) (h : selOk retry = false) :
    publishAttempts retries selOk sendOk (rem + 1) retry =
      { idx := retry, forceRefresh := decide (retry > 0),
        outcome := .selectFailed, slept := decide (retry + 1 < retries) } ::
        publishAttempts retries selOk sendOk rem (retry + 1) := by
  simp [publishAttempts, h]

theorem publishAttempts_sendFail (retries : Nat) (selOk sendOk : Nat → Bool)
    (rem retry : Nat) (h1 : selOk retry = true) (h2 : sendOk retry = false) :
    publishAttempts retries selOk sendOk (rem + 1) retry =
      { idx := retry, forceRefresh := decide (retry > 0),
        outcome := .sendFailed, slept := decide (retry + 1 < retries) } ::
        publishAttempts retries selOk sendOk rem (retry + 1) := by
  simp [publishAttempts, h1, h2]

theorem publishAttempts_sent (retries : Nat) (selOk sendOk : Nat → Bool)
    (rem retry : Nat) (h1 : selOk retry = true) (h2 : sendOk retry = true) :
    publishAttempts retries selOk sendOk (rem + 1) retry =
      [{ idx := retry, forceRefresh := decide (retry > 0),
         outcome := .sent, slept := false }] := by
  simp [publishAttempts, h1, h2]

theorem publishAttempts_all_fail (retries : Nat) (selOk sendOk : Nat → Bool) :
    ∀ (rem retry : Nat),
      (∀ i, retry ≤ i → i < retry + rem → selOk i = false ∨ sendOk i = false) →
      (publishAttempts retries selOk sendOk rem retry).length = rem ∧
      ∀ a ∈ publishAttempts retries selOk sendOk rem retry,
        a.outcome ≠ .sent := by
  intro rem
  induction rem with
  | zero => intro retry _; exact ⟨rfl, by simp [publishAttempts]⟩
  | succ rem ih =>
    intro retry h
    have h0 := h retry (Nat.le_refl _) (by omega)
    obtain ⟨hl, hm⟩ := ih (retry + 1) (fun i h1 h2 => h i (by omega) (by omega))
    cases hsel : selOk retry
    · rw [publishAttempts_selectFail retries selOk sendOk rem retry hsel]
      refine ⟨by simp [hl], ?_⟩
      intro a ha
      rcases List.mem_cons.mp ha with h1 | h1
      · rw [h1]; simp
      · exact hm a h1
    · cases hsend : sendOk retry
      · rw [publishAttempts_sendFail retries selOk sendOk rem retry hsel hsend]
        refine ⟨by simp [hl], ?_⟩
        intro a ha
        rcases List.mem_cons.mp ha with h1 | h1
        · rw [h1]; simp
        · exact hm a h1
      · rcases h0 with h1 | h1
        · rw [hsel] at h1; cases h1
        · rw [hsend] at h1; cases h1

theorem publishAttempts_getElem (retries : Nat) (selOk sendOk : Nat → Bool) :
    ∀ (rem retry k : Nat) (a : Attempt),
      (publishAttempts retries selOk sendOk rem retry)[k]? = some a →
      a.idx = retry + k ∧ a.forceRefresh = decide (0 < retry + k) := by
  intro rem
  induction rem with
  | zero => intro retry k a ha; simp [publishAttempts] at ha
  | succ rem ih =>
    intro retry k a ha
    have hstep : ∀ (a0 : Attempt) (l : List Attempt),
        a0.idx = retry → a0.forceRefresh = decide (retry > 0) →
        publishAttempts retries selOk sendOk (rem + 1) retry = a0 :: l →
        (l = publishAttempts retries selOk sendOk rem (retry + 1) ∨ l = []) →
        a.idx = retry + k ∧ a.forceRefresh = decide (0 < retry + k) := by
      intro a0 l hidx hfr heq hl
      rw [heq] at ha
      cases k with
      | zero =>
        rw [List.getElem?_cons_zero] at ha
        obtain rfl : a0 = a := by injection ha
        exact ⟨by rw [hidx]; omega, by rw [hfr]; rw [Nat.add_zero]⟩
      | succ k =>
        rw [List.getElem?_cons_succ] at ha
        rcases hl with hl | hl
        · rw [hl] at ha
          obtain ⟨h1, h2⟩ := ih (retry + 1) k a ha
          have hre : retry + 1 + k = retry + (k + 1) := by omega
          rw [hre] at h1 h2
          exact ⟨h1, h2⟩
        · rw [hl] at ha
          simp at ha
    cases hsel : selOk retry
    · exact hstep _ _ rfl rfl
        (publishAttempts_selectFail retries selOk sendOk rem retry hsel)
        (Or.inl rfl)
    · cases hsend : sendOk retry
      · exact hstep _ _ rfl rfl
          (publishAttempts_sendFail retries selOk sendOk rem retry hsel hsend)
          (Or.inl rfl)
      · exact hstep _ _ rfl rfl
          (publishAttempts_sent retries selOk sendOk rem retry hsel hsend)
          (Or.inr rfl)

theorem publishAttempts_slept (retries : Nat) (selOk sendOk : Nat → Bool) :
    ∀ (rem retry : Nat) (a : Attempt),
      a ∈ publishAttempts retries selOk sendOk rem retry → a.slept = true →
      a.outcome ≠ .sent ∧ a.idx + 1 < retries := by
  intro rem
  induction rem with
  | zero => intro retry a ha; simp [publishAttempts] at ha
  | succ rem ih =>
    intro retry a ha hslept
    cases hsel : selOk retry
    · rw [publishAttempts_selectFail retries selOk sendOk rem retry hsel] at ha
      rcases List.mem_cons.mp ha with h1 | h1
      · subst h1
        simp only [] at hslept ⊢
        exact ⟨by simp, of_decide_eq_true hslept⟩
      · exact ih (retry + 1) a h1 hslept
    · cases hsend : sendOk retry
      · rw [publishAttempts_sendFail retries selOk sendOk rem retry hsel hsend]
          at ha
        rcases List.mem_cons.mp ha with h1 | h1
        · subst h1
          exact ⟨by simp, of_decide_eq_true hslept⟩
        · exact ih (retry + 1) a h1 hslept
      · rw [publishAttempts_sent retries selOk sendOk rem retry hsel hsend] at ha
        rcases List.mem_cons.mp ha with h1 | h1
        · subst h1
          simp at hslept
        · simp at h1

theorem publishAttempts_first_success (retries : Nat)
    (selOk sendOk : Nat → Bool) :
    ∀ (j rem retry : Nat), j < rem →
      (∀ i, i < j → selOk (retry + i) = false ∨ sendOk (retry + i) = false) →
      selOk (retry + j) = true → sendOk (retry + j) = true →
      (publishAttempts retries selOk sendOk rem retry).length = j + 1 ∧
      (publishAttempts retries selOk sendOk rem retry).getLast? =
        some { idx := retry + j, forceRefresh := decide (0 < retry + j),
               outcome := .sent, slept := false } := by
  intro j
  induction j with
  | zero =>
    intro rem retry hrem _ hsel hsend
    obtain ⟨rem', rfl⟩ : ∃ rem', rem = rem' + 1 :=
      ⟨rem - 1, by omega⟩
    rw [Nat.add_zero] at hsel hsend
    rw [publishAttempts_sent retries selOk sendOk rem' retry hsel hsend]
    refine ⟨rfl, ?_⟩
    simp
  | succ j ih =>
    intro rem retry hrem hfail hsel hsend
    obtain ⟨rem', rfl⟩ : ∃ rem', rem = rem' + 1 :=
      ⟨rem - 1, by omega⟩
    have hshift : ∀ i, i < j →
        selOk (retry + 1 + i) = false ∨ sendOk (retry + 1 + i) = false := by
      intro i hi
      have := hfail (i + 1) (by omega)
      rw [show retry + (i + 1) = retry + 1 + i by omega] at this
      exact this
    have hsel2 : selOk (retry + 1 + j) = true := by
      rw [show retry + 1 + j = retry + (j + 1) by omega]; exact hsel
    have hsend2 : sendOk (retry + 1 + j) = true := by
      rw [show retry + 1 + j = retry + (j + 1) by omega]; exact hsend
    have hIH := ih rem' (retry + 1) (by omega) hshift hsel2 hsend2
    rw [show retry + 1 + j = retry + (j + 1) by omega] at hIH
    have h0 := hfail 0 (by omega)
    rw [Nat.add_zero] at h0
    have hcons : ∀ (a : Attempt),
        publishAttempts retries selOk sendOk (rem' + 1) retry =
          a :: publishAttempts retries selOk sendOk rem' (retry + 1) →
        (publishAttempts retries selOk sendOk (rem' + 1) retry).length =
          (j + 1) + 1 ∧
        (publishAttempts retries selOk sendOk (rem' + 1) retry).getLast? =
          some { idx := retry + (j + 1),
                 forceRefresh := decide (0 < retry + (j + 1)),
                 outcome := .sent, slept := false } := by
      intro a heq
      constructor
      · rw [heq]
        simp only [List.length_cons, hIH.1]
      · rw [heq]
        cases htail : publishAttempts retries selOk sendOk rem' (retry + 1) with
        | nil => rw [htail] at hIH; simp at hIH
        | cons b l' =>
          rw [List.getLast?_cons_cons, ← htail]
          exact hIH.2
    cases hsel0 : selOk retry
    · exact hcons _
        (publishAttempts_selectFail retries selOk sendOk rem' retry hsel0)
    · cases hsend0 : sendOk retry
      · exact hcons _
          (publishAttempts_sendFail retries selOk sendOk rem' retry hsel0 hsend0)
      · rcases h0 with h1 | h1
        · rw [hsel0] at h1; cases h1
        · rw [hsend0] at h1; cases h1

theorem Publish_ok_eq (c : Config) (selOk sendOk : Nat → Bool) (u : String)
    (hurl : prometheusUrl c = .ok u) :
    Publish (.ok ()) c selOk sendOk =
      (.ok, publishAttempts c.retries selOk sendOk c.retries 0) := by
  simp [Publish, hurl]

/-- A well-formed configuration used by concrete instances. -/
def goodConfig : Config :=
  { host := "gw", port := 9091, https := false, job := "batch1",
    instanceName := "", retries := 3, timeoutSecs := 10, replace := false }

/-- A configuration whose composed URL fails to parse: the job name
contains a control character (newline), which Go's `url.Parse` rejects. -/
def badConfig : Config :=
  { goodConfig with job := "a\nb" }

/-- C2: for every batch and configuration with which every delivery
attempt fails, `Publish` still returns nil: the loop makes all
`config.retries` attempts, none of them results in a sent request, and the
call reports success to the caller. -/
theorem c2_exhausted_retries_report_success (c : Config)
    (selOk sendOk : Nat → Bool) (u : String)
    (hurl : prometheusUrl c = .ok u)
    (hfail : ∀ i, i < c.retries → selOk i = false ∨ sendOk i = false) :
    (Publish (.ok ()) c selOk sendOk).1 = .ok ∧
    (Publish (.ok ()) c selOk sendOk).2.length = c.retries ∧
    ∀ a ∈ (Publish (.ok ()) c selOk sendOk).2, a.outcome ≠ .sent := by
  rw [Publish_ok_eq c selOk sendOk u hurl]
  obtain ⟨hl, hm⟩ := publishAttempts_all_fail c.retries selOk sendOk
    c.retries 0 (fun i _ h2 => hfail i (by omega))
  exact ⟨rfl, hl, hm⟩

/-- Witness for C2: three attempts, all failing at the transport, still
produce a nil result. -/
theorem c2_exhausted_retries_report_success_witness :
    (Publish (.ok ()) goodConfig (fun _ => true) (fun _ => false)).1 = .ok ∧
    (Publish (.ok ()) goodConfig (fun _ => true)
      (fun _ => false)).2.length = 3 ∧
    ∀ a ∈ (Publish (.ok ()) goodConfig (fun _ => true) (fun _ => false)).2,
      a.outcome ≠ .sent :=
  c2_exhausted_retries_report_success goodConfig (fun _ => true)
    (fun _ => false) "http://gw:9091/metrics/job/batch1" rfl
    (fun _ _ => Or.inr rfl)

/-- C3: the specification demands a recoverable `InvalidConfiguration`
error returned to the caller when the destination URL cannot be composed;
the code instead calls `panic(err)` (prometheus.go:177), aborting, before
any retry attempt is made.  This theorem evaluates the code at such a
configuration: the publish call panics with the parse error and makes zero
attempts. -/
theorem c3_invalid_url_panics :
    Publish (.ok ()) badConfig (fun _ => true) (fun _ => true) =
      (.panicked "net/url: invalid control character in URL", []) := by
  rfl

/-- C4: attempts are numbered 0 up to but excluding `config.retries`, with
`forceRefresh` false exactly on attempt 0; the loop stops at the first
attempt whose send does not error; a backoff sleep follows a failed
attempt only when further attempts remain; with `retries = 3` and a
transport failing on the first two attempts and succeeding on the third,
exactly 3 attempts are made and the call reports success. -/
theorem c4_retry_loop_shape (c : Config) (selOk sendOk : Nat → Bool)
    (u : String) (hurl : prometheusUrl c = .ok u) :
    (∀ (k : Nat) (a : Attempt),
      (Publish (.ok ()) c selOk sendOk).2[k]? = some a →
      a.idx = k ∧ a.forceRefresh = decide (0 < k)) ∧
    (∀ a ∈ (Publish (.ok ()) c selOk sendOk).2, a.slept = true →
      a.outcome ≠ .sent ∧ a.idx + 1 < c.retries) ∧
    (∀ j, j < c.retries →
      (∀ i, i < j → selOk i = false ∨ sendOk i = false) →
      selOk j = true → sendOk j = true →
      (Publish (.ok ()) c selOk sendOk).1 = .ok ∧
      (Publish (.ok ()) c selOk sendOk).2.length = j + 1 ∧
      (Publish (.ok ()) c selOk sendOk).2.getLast? =
        some { idx := j, forceRefresh := decide (0 < j),
               outcome := .sent, slept := false }) := by
  rw [Publish_ok_eq c selOk sendOk u hurl]
  refine ⟨?_, ?_, ?_⟩
  · intro k a ha
    have := publishAttempts_getElem c.retries selOk sendOk c.retries 0 k a ha
    simpa using this
  · intro a ha hslept
    exact publishAttempts_slept c.retries selOk sendOk c.retries 0 a ha hslept
  · intro j hj hfail hsel hsend
    have h := publishAttempts_first_success c.retries selOk sendOk j
      c.retries 0 hj (fun i hi => by simpa using hfail i hi)
      (by simpa using hsel) (by simpa using hsend)
    simp only [Nat.zero_add] at h
    exact ⟨rfl, h.1, h.2⟩

/-- Witness for C4: retries 3, transport failing on attempts 0 and 1 and
succeeding on attempt 2. -/
theorem c4_retry_loop_shape_witness :
    (Publish (.ok ()) goodConfig (fun _ => true) (fun i => decide (2 ≤ i))).1 = .ok ∧
    (Publish (.ok ()) goodConfig (fun _ => true)
      (fun i => decide (2 ≤ i))).2.length = 3 ∧
    (Publish (.ok ()) goodConfig (fun _ => true) (fun i => decide (2 ≤ i))).2.getLast? =
      some { idx := 2, forceRefresh := decide (0 < 2),
             outcome := .sent, slept := false } :=
  (c4_retry_loop_shape goodConfig (fun _ => true) (fun i => decide (2 ≤ i))
      "http://gw:9091/metrics/job/batch1" rfl).2.2 2 (by decide)
    (fun i hi => Or.inr (decide_eq_false (by omega))) rfl (by decide)

/-! ## Helper lemmas: the connection pool -/

theorem tagInsert_keys_mem {α : Type} (k x : String) (v : α) :
    ∀ (l : List (String × α)),
      (x ∈ (tagInsert l k v).map Prod.fst ↔ x ∈ l.map Prod.fst ∨ x = k) := by
  intro l
  induction l with
  | nil => simp [tagInsert]
  | cons p t ih =>
    by_cases h : p.1 = k
    · subst h
      simp [tagInsert]
      tauto
    · simp only [tagInsert, beq_iff_eq, h, if_neg, not_false_iff,
        List.map_cons, List.mem_cons, ih]
      tauto

theorem tagInsert_keys_nodup {α : Type} (k : String) (v : α) :
    ∀ (l : List (String × α)), (l.map Prod.fst).Nodup →
      ((tagInsert l k v).map Prod.fst).Nodup := by
  intro l
  induction l with
  | nil => intro _; simp [tagInsert]
  | cons p t ih =>
    intro h
    rw [List.map_cons, List.nodup_cons] at h
    by_cases hp : p.1 = k
    · subst hp
      simp only [tagInsert, beq_self_eq_true, if_pos, List.map_cons,
        List.nodup_cons]
      exact h
    · simp only [tagInsert, beq_iff_eq, hp, if_neg, not_false_iff,
        List.map_cons, List.nodup_cons]
      refine ⟨fun hmem => ?_, ih h.2⟩
      rcases (tagInsert_keys_mem k p.1 v t).mp hmem with h1 | h1
      · exact h.1 h1
      · exact hp h1

theorem selectClient_create (c : Config) (fr : Bool) (st : PoolState)
    (now : Nat) (u : String) (hurl : prometheusUrl c = .ok u)
    (hcond : tagLookup st.clientPool u = none ∨ fr = true) :
    selectClient c fr st now =
      (.ok ⟨u, ⟨st.nextId, c.timeoutSecs⟩, now⟩,
       ⟨tagInsert st.clientPool u ⟨u, ⟨st.nextId, c.timeoutSecs⟩, now⟩,
        st.nextId + 1⟩) := by
  rcases hcond with h | h
  · simp [selectClient, hurl, h]
  · subst h
    cases hl : tagLookup st.clientPool u <;> simp [selectClient, hurl, hl]

theorem selectClient_update (c : Config) (st : PoolState) (now : Nat)
    (u : String) (cc : ClientConn) (hurl : prometheusUrl c = .ok u)
    (hl : tagLookup st.clientPool u = some cc) :
    selectClient c false st now =
      (.ok { cc with LastUsed := now },
       { st with clientPool :=
          tagInsert st.clientPool u { cc with LastUsed := now } }) := by
  simp [selectClient, hurl, hl]

theorem selectClient_ok_lookup (c : Config) (fr : Bool) (st : PoolState)
    (now : Nat) (u : String) (hurl : prometheusUrl c = .ok u) :
    ∀ (cc1 : ClientConn) (st1 : PoolState),
      selectClient c fr st now = (.ok cc1, st1) →
      tagLookup st1.clientPool u = some cc1 := by
  intro cc1 st1 h
  cases hl : tagLookup st.clientPool u with
  | none =>
    rw [selectClient_create c fr st now u hurl (Or.inl hl)] at h
    simp only [Prod.mk.injEq, SelectResult.ok.injEq] at h
    obtain ⟨h1, h2⟩ := h
    rw [← h2, ← h1]
    exact tagLookup_tagInsert_self _ _ _
  | some cc =>
    cases fr with
    | true =>
      rw [selectClient_create c true st now u hurl (Or.inr rfl)] at h
      simp only [Prod.mk.injEq, SelectResult.ok.injEq] at h
      obtain ⟨h1, h2⟩ := h
      rw [← h2, ← h1]
      exact tagLookup_tagInsert_self _ _ _
    | false =>
      rw [selectClient_update c st now u cc hurl hl] at h
      simp only [Prod.mk.injEq, SelectResult.ok.injEq] at h
      obtain ⟨h1, h2⟩ := h
      rw [← h2, ← h1]
      exact tagLookup_tagInsert_self _ _ _

/-- C5: two successive `selectClient` calls with `forceRefresh = false` and
the same configuration return the same underlying handle, the second call
refreshing the stored entry's last-used time; when no entry exists for the
key or `forceRefresh` is true, a freshly allocated client configured with
`config.timeoutSecs` seconds is stored under the key with last-used = now
(replacing any prior entry, keeping at most one entry per key) and
returned. -/
theorem c5_selectClient_pool (c : Config) (fr : Bool) (st : PoolState)
    (now1 now2 : Nat) (u : String) (hurl : prometheusUrl c = .ok u) :
    (∀ (cc1 : ClientConn) (st1 : PoolState),
      selectClient c false st now1 = (.ok cc1, st1) →
      selectClient c false st1 now2 =
        (.ok { cc1 with LastUsed := now2 },
         { st1 with clientPool :=
            tagInsert st1.clientPool u { cc1 with LastUsed := now2 } }) ∧
      tagLookup (tagInsert st1.clientPool u { cc1 with LastUsed := now2 }) u =
        some { cc1 with LastUsed := now2 }) ∧
    ((tagLookup st.clientPool u = none ∨ fr = true) →
      selectClient c fr st now1 =
        (.ok ⟨u, ⟨st.nextId, c.timeoutSecs⟩, now1⟩,
         ⟨tagInsert st.clientPool u ⟨u, ⟨st.nextId, c.timeoutSecs⟩, now1⟩,
          st.nextId + 1⟩)) ∧
    ((st.clientPool.map Prod.fst).Nodup →
      ((selectClient c fr st now1).2.clientPool.map Prod.fst).Nodup) := by
  refine ⟨?_, ?_, ?_⟩
  · intro cc1 st1 h
    have hlk := selectClient_ok_lookup c false st now1 u hurl cc1 st1 h
    exact ⟨selectClient_update c st1 now2 u cc1 hurl hlk,
      tagLookup_tagInsert_self _ _ _⟩
  · intro hcond
    exact selectClient_create c fr st now1 u hurl hcond
  · intro hnd
    cases hl : tagLookup st.clientPool u with
    | none =>
      rw [selectClient_create c fr st now1 u hurl (Or.inl hl)]
      exact tagInsert_keys_nodup _ _ _ hnd
    | some cc =>
      cases fr with
      | true =>
        rw [selectClient_create c true st now1 u hurl (Or.inr rfl)]
        exact tagInsert_keys_nodup _ _ _ hnd
      | false =>
        rw [selectClient_update c st now1 u cc hurl hl]
        exact tagInsert_keys_nodup _ _ _ hnd

/-- Witness for C5: a create call on the empty pool followed by a reusing
call that refreshes the timestamp of the same handle. -/
theorem c5_selectClient_pool_witness :
    selectClient goodConfig false
        ⟨[("http://gw:9091/metrics/job/batch1",
           ⟨"http://gw:9091/metrics/job/batch1", ⟨0, 10⟩, 1⟩)], 1⟩ 2 =
      (.ok ⟨"http://gw:9091/metrics/job/batch1", ⟨0, 10⟩, 2⟩,
       ⟨[("http://gw:9091/metrics/job/batch1",
          ⟨"http://gw:9091/metrics/job/batch1", ⟨0, 10⟩, 2⟩)], 1⟩) ∧
    selectClient goodConfig false ⟨[], 0⟩ 1 =
      (.ok ⟨"http://gw:9091/metrics/job/batch1", ⟨0, 10⟩, 1⟩,
       ⟨[("http://gw:9091/metrics/job/batch1",
          ⟨"http://gw:9091/metrics/job/batch1", ⟨0, 10⟩, 1⟩)], 1⟩) := by
  have h := c5_selectClient_pool goodConfig false ⟨[], 0⟩ 1 2
    "http://gw:9091/metrics/job/batch1" rfl
  refine ⟨?_, h.2.1 (Or.inl rfl)⟩
  have h1 := (h.1 ⟨"http://gw:9091/metrics/job/batch1", ⟨0, 10⟩, 1⟩
    ⟨[("http://gw:9091/metrics/job/batch1",
       ⟨"http://gw:9091/metrics/job/batch1", ⟨0, 10⟩, 1⟩)], 1⟩
    (h.2.1 (Or.inl rfl))).1
  exact h1

/-- C6: one reaper scan removes exactly the entries whose idle duration at
scan time exceeds 5 minutes and keeps every entry used more recently than
the threshold; scans run on a 1-minute period (the first scan of
`watchConnections` happens one `watchConnectionWait` after start, not
instantaneously on expiry). -/
theorem c6_reaper_scan (pool : List (String × ClientConn)) (now t0 : Nat) :
    (∀ kv ∈ pool, now - kv.2.LastUsed > maxConnectionIdle →
      kv ∉ reapScan pool now) ∧
    (∀ kv ∈ pool, now - kv.2.LastUsed < maxConnectionIdle →
      kv ∈ reapScan pool now) ∧
    watchConnectionsRun pool t0 1 = reapScan pool (t0 + watchConnectionWait) ∧
    watchConnectionWait = timeMinute ∧
    maxConnectionIdle = 5 * timeMinute := by
  refine ⟨?_, ?_, ?_, rfl, rfl⟩
  · intro kv _ hex hmem
    rw [reapScan, List.mem_filter] at hmem
    have h2 := hmem.2
    simp only [Bool.not_eq_eq_eq_not, Bool.not_true, decide_eq_false_iff_not]
      at h2
    exact h2 hex
  · intro kv hkv hlt
    rw [reapScan, List.mem_filter]
    refine ⟨hkv, ?_⟩
    simp only [Bool.not_eq_eq_eq_not, Bool.not_true, decide_eq_false_iff_not]
    omega
  · simp [watchConnectionsRun]

/-- Witness for C6: an entry idle for 6 minutes is gone after the scan, an
entry just used survives. -/
theorem c6_reaper_scan_witness :
    (("k1", ⟨"k1", ⟨0, 10⟩, 0⟩) : String × ClientConn) ∉
      reapScan [("k1", ⟨"k1", ⟨0, 10⟩, 0⟩),
        ("k2", ⟨"k2", ⟨1, 10⟩, 6 * timeMinute⟩)] (6 * timeMinute) ∧
    (("k2", ⟨"k2", ⟨1, 10⟩, 6 * timeMinute⟩) : String × ClientConn) ∈
      reapScan [("k1", ⟨"k1", ⟨0, 10⟩, 0⟩),
        ("k2", ⟨"k2", ⟨1, 10⟩, 6 * timeMinute⟩)] (6 * timeMinute) := by
  have h := c6_reaper_scan
    [("k1", ⟨"k1", ⟨0, 10⟩, 0⟩), ("k2", ⟨"k2", ⟨1, 10⟩, 6 * timeMinute⟩)]
    (6 * timeMinute) 0
  exact ⟨h.1 _ (by simp) (by decide), h.2.1 _ (by simp) (by decide)⟩

/-- C10: `selectClient` computes the pool key by dereferencing the URL
result before checking the construction error, so a failed URL parse
panics on a nil dereference instead of reaching the error return; under
the precondition that URL construction succeeds its error result is always
nil, making the connection-selection-error branch unreachable. -/
theorem c10_selectClient_nil_deref (c : Config) (fr : Bool) (st : PoolState)
    (now : Nat) :
    (∀ e, prometheusUrl c = .error e →
      selectClient c fr st now = (.nilDerefPanic, st)) ∧
    (∀ u, prometheusUrl c = .ok u →
      (∃ cc, (selectClient c fr st now).1 = .ok cc) ∧
      ∀ msg, (selectClient c fr st now).1 ≠ .err msg) := by
  constructor
  · intro e he
    simp [selectClient, he]
  · intro u hu
    cases hl : tagLookup st.clientPool u with
    | none =>
      rw [selectClient_create c fr st now u hu (Or.inl hl)]
      exact ⟨⟨_, rfl⟩, fun msg h => by cases h⟩
    | some cc =>
      cases fr with
      | true =>
        rw [selectClient_create c true st now u hu (Or.inr rfl)]
        exact ⟨⟨_, rfl⟩, fun msg h => by cases h⟩
      | false =>
        rw [selectClient_update c st now u cc hu hl]
        exact ⟨⟨_, rfl⟩, fun msg h => by cases h⟩

/-- Witness for C10: a config with a control character in the job panics;
a well-formed config never yields the error result. -/
theorem c10_selectClient_nil_deref_witness :
    selectClient badConfig true ⟨[], 0⟩ 0 = (.nilDerefPanic, ⟨[], 0⟩) ∧
    (selectClient goodConfig false ⟨[], 0⟩ 0).1 ≠ .err "x" :=
  ⟨(c10_selectClient_nil_deref badConfig true ⟨[], 0⟩ 0).1
     "net/url: invalid control character in URL" rfl,
   ((c10_selectClient_nil_deref goodConfig false ⟨[], 0⟩ 0).2
     "http://gw:9091/metrics/job/batch1" rfl).2 "x"⟩

/-- A record whose tag set carries the reserved running-on tag and a second
tag whose key sanitizes to the reserved key string. -/
def c7cex : Metric :=
  { ns := [⟨"a", ""⟩],
    tags := [("plugin_running_on", "v"), ("plugin-running-on", "x")],
    unit := "u", data := .ofStr "d", timestamp := 0 }

/-- Counterexample to C7 as stated: this record's tag set contains the
reserved running-on tag with value `v`, yet the transformed label set does
contain the reserved tag key verbatim (with value `x`), because the
distinct user key `plugin-running-on` sanitizes to the reserved string. -/
theorem c7_counterexample :
    tagLookup c7cex.tags STD_TAG_PLUGIN_RUNNING_ON = some "v" ∧
    tagLookup (mangleMetric c7cex).2.1 STD_TAG_PLUGIN_RUNNING_ON =
      some "x" := by
  constructor <;> rfl

/-- C7 (amended): for every record whose tag map (no duplicate keys, as in
a Go map) contains the reserved running-on tag with value `v`, the label
set contains `source = v` unless a `source` tag was user-supplied and
`host = v` unless a `host` tag was user-supplied; the reserved key itself
appears as a label key only through sanitization of a different user key
(or a dynamic segment of that name) — when no other tag key sanitizes to
the reserved string and no dynamic segment is named by it, the reserved
key is absent from the label set. -/
theorem c7_running_on_tag (m : Metric) (v : String)
    (hkeys : (m.tags.map Prod.fst).Nodup)
    (hv : tagLookup m.tags STD_TAG_PLUGIN_RUNNING_ON = some v) :
    (tagLookup m.tags "source" = none →
      tagLookup (mangleMetric m).2.1 "source" = some v) ∧
    (tagLookup m.tags "host" = none →
      tagLookup (mangleMetric m).2.1 "host" = some v) ∧
    ((∀ p ∈ m.tags, p.1 ≠ STD_TAG_PLUGIN_RUNNING_ON →
        sanitizeLabel p.1 ≠ STD_TAG_PLUGIN_RUNNING_ON) →
      (∀ e ∈ m.ns, e.name ≠ STD_TAG_PLUGIN_RUNNING_ON) →
      tagLookup (mangleMetric m).2.1 STD_TAG_PLUGIN_RUNNING_ON = none) := by
  have hall : ∀ p ∈ m.tags, p.1 = STD_TAG_PLUGIN_RUNNING_ON → p.2 = v :=
    tagLookup_value_of_nodup m.tags _ v hkeys hv
  have hex : ∃ p ∈ m.tags, p.1 = STD_TAG_PLUGIN_RUNNING_ON := by
    obtain ⟨p, hp, h1, _⟩ := tagLookup_some_mem m.tags _ v hv
    exact ⟨p, hp, h1⟩
  have h2 : (mangleMetric m).2.1 =
      m.tags.foldl (processTag m.tags)
        (if (tagLookup m.tags "unit").isSome then
          (dynLoop m.ns (m.ns.map (fun e => e.value)) []
            (dynamicIndexes m.ns) 0).2
         else
          tagInsert
            (dynLoop m.ns (m.ns.map (fun e => e.value)) []
              (dynamicIndexes m.ns) 0).2 "unit" m.unit) := rfl
  refine ⟨?_, ?_, ?_⟩
  · intro hsrc
    rw [h2]
    exact tagLookup_foldl_processTag_source m.tags v hsrc m.tags _ hall hex
      ((tagLookup_none_iff m.tags "source").mp hsrc)
  · intro hhost
    rw [h2]
    exact tagLookup_foldl_processTag_host m.tags v hhost m.tags _ hall hex
      ((tagLookup_none_iff m.tags "host").mp hhost)
  · intro hres hdyn
    rw [h2, tagLookup_foldl_processTag m.tags m.tags _ STD_TAG_PLUGIN_RUNNING_ON
      (fun p hp => ⟨fun _ => ⟨by decide, by decide⟩, fun hne => hres p hp hne⟩)]
    have h3 : ∀ acc : List (String × String), tagLookup
        (if (tagLookup m.tags "unit").isSome then acc
         else tagInsert acc "unit" m.unit) STD_TAG_PLUGIN_RUNNING_ON =
        tagLookup acc STD_TAG_PLUGIN_RUNNING_ON := by
      intro acc
      by_cases hu : (tagLookup m.tags "unit").isSome
      · rw [if_pos hu]
      · rw [if_neg hu, tagLookup_tagInsert_ne _ _ _ _ (by decide)]
    rw [h3, dynLoop_snd]
    rw [tagLookup_foldl_tagInsert_ne (fun j => (m.ns.getD j default).name)
      (fun j => (m.ns.getD j default).value) (dynamicIndexes m.ns) []
      STD_TAG_PLUGIN_RUNNING_ON ?hne]
    · rfl
    case hne =>
      intro j hj
      have hjlt : j < m.ns.length := by
        have := dynamicIndexesFrom_lt m.ns 0 j hj
        omega
      have hmem : m.ns.getD j default ∈ m.ns := by
        rw [List.getD_eq_getElem?_getD, List.getElem?_eq_getElem hjlt,
          Option.getD_some]
        exact List.getElem_mem hjlt
      exact hdyn _ hmem

/-- A record with the reserved running-on tag plus an unrelated tag key. -/
def c7w : Metric :=
  { ns := [⟨"a", ""⟩], tags := [("plugin_running_on", "v"), ("x y", "1")],
    unit := "u", data := .ofInt 0, timestamp := 0 }

/-- Witness for the amended C7: reserved tag plus an unrelated tag key. -/
theorem c7_running_on_tag_witness :
    tagLookup (mangleMetric c7w).2.1 "source" = some "v" ∧
    tagLookup (mangleMetric c7w).2.1 "host" = some "v" ∧
    tagLookup (mangleMetric c7w).2.1 STD_TAG_PLUGIN_RUNNING_ON = none := by
  have h := c7_running_on_tag c7w "v" (by decide) rfl
  exact ⟨h.1 rfl, h.2.1 rfl, h.2.2 (by decide) (by decide)⟩

end SnapPrometheus
